import Mathlib

/-!
A shallow embedding of the `contextual` crate's `src/lib.rs`: the
block-segmented stack container `Context<T>`, its operations
(`new`, `len`, `push`, `top`, `pop`), the accessor macros
(`try_get!`, `get!`), and the teardown logic of `impl Drop for Context`.
-/

namespace Contextual

/-- Size of the machine word domain (`usize` on a 64-bit target), written as
a numeral; `USIZE_eq` below records that it is `2 ^ 64`. -/
def USIZE : Nat := 18446744073709551616

/-- Embeds `struct Context<T>`: `blocks: UnsafeCell<Vec<*mut T>>` becomes a
list of blocks, each block a list of `block_capacity` slots where `none`
models an uninitialized (`MaybeUninit`) slot; `len: Cell<usize>` is the
running length counter (the field, distinct from the public method
`Context::len`, embedded below as `len_fn`). -/
structure Context (T : Type) where
  blocks : List (List (Option T))
  block_capacity : Nat
  len : Nat
deriving DecidableEq

variable {T : Type}

/-- Embeds `Context::new`: `NonZeroUsize::new(cap).expect(...)` panics on a
zero capacity, modelled as `Except.error` carrying the panic message. -/
def Context.new (T : Type) (block_capacity : Nat) : Except String (Context T) :=
  if block_capacity = 0 then .error "The block capacity must be non-zero"
  else .ok { blocks := [], block_capacity := block_capacity, len := 0 }

/-- The `Context` a successful `Context::new` returns: no blocks, length
counter zero. -/
def Context.fresh (T : Type) (block_capacity : Nat) : Context T :=
  { blocks := [], block_capacity := block_capacity, len := 0 }

/-- Embeds the public accessor `Context::len`, which returns `blocks.len()`
(the number of allocated block pointers in the `Vec`), not the `len`
counter. -/
def Context.len_fn (s : Context T) : Nat := s.blocks.length

/-- Embeds `ContextExt::is_empty`, namely `self.len() == 0`, in terms of the
public `Context::len` accessor (`ContextExt::len` for `&Context<T>` just
delegates to it). -/
def Context.is_empty (s : Context T) : Bool := s.len_fn == 0

/-- Embeds `Context::reserve_block`: allocates one fresh block of
`block_capacity` uninitialized slots and appends its pointer to `blocks`. -/
def Context.reserve_block (s : Context T) : Context T :=
  { s with blocks := s.blocks ++ [List.replicate s.block_capacity (none : Option T)] }

/-- Address of the slot that holds logical index `i`: the source computes
the machine address `blocks[i / capacity].add(i % capacity)`; since blocks
are never moved or freed while the `Context` is alive, the pair
`(block index, offset)` is a faithful proxy for that machine address. -/
def slot_addr (capacity i : Nat) : Nat × Nat := (i / capacity, i % capacity)

/-- The cold-path decision of `Context::push`: a block is allocated exactly
when `slot == 0 && block >= self.len()` holds, `self.len()` being the number
of blocks already allocated. -/
def Context.push_target (s : Context T) : Context T :=
  if s.len % s.block_capacity = 0 ∧ s.blocks.length ≤ s.len / s.block_capacity
  then s.reserve_block else s

/-- Embeds `Context::push`: computes the target block and slot from the
length counter, allocates a block on the cold path (`push_target`), writes
the value into the target slot, increments the counter, and returns the
slot's address. -/
def Context.push (s : Context T) (value : T) : Context T × (Nat × Nat) :=
  let block := s.len / s.block_capacity
  let slot := s.len % s.block_capacity
  let s1 := s.push_target
  ({ s1 with
      blocks := s1.blocks.set block ((s1.blocks.getD block []).set slot (some value)),
      len := s.len + 1 },
   (block, slot))

/-- Embeds `Context::top`: `self.len.get().checked_sub(1)?` guards
emptiness, then the address of slot `len - 1` is computed; `top` takes
`&self` and mutates nothing, which the embedding reflects by returning only
the address and not a new state. -/
def Context.top (s : Context T) : Option (Nat × Nat) :=
  if s.len = 0 then none else some (slot_addr s.block_capacity (s.len - 1))

/-- Embeds `Context::pop`: `self.len.set(self.len.get().wrapping_sub(1))`,
with the wrap-around of `usize` subtraction made explicit. -/
def Context.pop (s : Context T) : Context T :=
  { s with len := (s.len + (USIZE - 1)) % USIZE }

/-- Embeds `impl Drop for Item` outside miri builds: it only calls
`self.ctx.pop()`. -/
def itemDrop (s : Context T) : Context T := s.pop

/-- Reading through an address previously handed out by `push`/`top` (the
embedding of dereferencing the `NonNull<T>`): `some v` when the slot is
initialized, `none` when it is uninitialized or out of range. -/
def Context.deref (s : Context T) (a : Nat × Nat) : Option T :=
  (s.blocks[a.1]?.bind fun b => b[a.2]?).join

/-- Embeds the `try_get!` macro: `StackGuard::new`/`from_ref` wrap
`context.top()`, returning `none` on an empty context. -/
def Context.try_get (s : Context T) : Option (Nat × Nat) := s.top

/-- Embeds the `get!` macro: `try_get!` followed by
`.expect("Tried to get from an empty context")`, the panic modelled as
`Except.error` carrying the exact panic message. -/
def Context.get_strict (s : Context T) : Except String (Nat × Nat) :=
  match s.top with
  | none => .error "Tried to get from an empty context"
  | some a => .ok a

/-- Invariant holding of every reachable `Context`: positive block capacity,
enough block storage to cover the `len` live slots, and every allocated
block holding exactly `block_capacity` slots. -/
def Context.wf (s : Context T) : Prop :=
  0 < s.block_capacity ∧
  s.len ≤ s.blocks.length * s.block_capacity ∧
  ∀ b ∈ s.blocks, b.length = s.block_capacity

instance (s : Context T) : Decidable s.wf := by
  unfold Context.wf
  exact inferInstance

/-- Fold a sequence of `push` calls, discarding the returned addresses. -/
def Context.pushMany (s : Context T) (vs : List T) : Context T :=
  vs.foldl (fun s v => (s.push v).1) s

/-- Outcome status of the teardown sweep: `normal` when no destructor
panicked, `unwinding g` when the destructor of global slot `g` panicked
first (that panic is propagated to the destroyer once, after the sweep),
`aborted` when a destructor panicked while already unwinding (a double
panic aborts the process). -/
inductive SweepStatus where
  | normal
  | unwinding (first : Nat)
  | aborted
deriving DecidableEq

/-- State threaded through the teardown sweep: the global slot indices whose
destructor has been invoked so far (in invocation order), the number of
blocks whose backing memory has been freed, and the panic status. -/
structure SweepState where
  destructed : List Nat
  freed : Nat
  status : SweepStatus
deriving DecidableEq

/-- Destruct one live slot (global index `g`): skipped after an abort;
otherwise records the destructor invocation, and starts or escalates
unwinding when that destructor panics (`panics g = true`). -/
def dropSlot (panics : Nat → Bool) (st : SweepState) (g : Nat) : SweepState :=
  match st.status with
  | .aborted => st
  | .normal =>
      { st with destructed := st.destructed ++ [g],
                status := if panics g then .unwinding g else .normal }
  | .unwinding p =>
      { st with destructed := st.destructed ++ [g],
                status := if panics g then .aborted else .unwinding p }

/-- Destruct the `m` live slots of the block at global base `base`, in order
(Rust's slice drop glue keeps destructing while unwinding). -/
def dropSlots (panics : Nat → Bool) (base : Nat) (st : SweepState) (m : Nat) : SweepState :=
  (List.range m).foldl (fun acc j => dropSlot panics acc (base + j)) st

/-- Embeds dropping one reconstructed `Vec` inside `impl Drop for Context`:
destruct the block's `m` live slots in order, then free the block's backing
memory — unless the process aborted mid-block. -/
def dropBlock (panics : Nat → Bool) (st : SweepState) (base m : Nat) : SweepState :=
  match (dropSlots panics base st m).status with
  | .aborted => dropSlots panics base st m
  | _ => { dropSlots panics base st m with freed := (dropSlots panics base st m).freed + 1 }

/-- Sweep the listed blocks in order: the block at global base `base` holds
global indices `base`, `base + 1`, ...; consecutive blocks sit `capacity`
apart. Models the iterator consumed by `DropContext`, including the
`on_panic` guard that keeps consuming it during unwinding. -/
def sweepFrom (panics : Nat → Bool) (capacity : Nat) : Nat → SweepState → List Nat → SweepState
  | _, st, [] => st
  | base, st, m :: ms =>
      sweepFrom panics capacity (base + capacity) (dropBlock panics st base m) ms

/-- Embeds the `block_sizes` iterator of `impl Drop for Context`: the first
`len / capacity` blocks are fully live (`capacity` live slots each), the
next block holds `len % capacity` live slots (`core::mem::take` zeroes the
shared counter after yielding it once), every later block holds none; the
`zip` with the block list truncates the sizes to `blocks.len()` entries. -/
def Context.block_sizes (s : Context T) : List Nat :=
  (List.replicate (s.len / s.block_capacity) s.block_capacity ++
      (List.range (s.blocks.length - s.len / s.block_capacity)).map
        (fun i => if i = 0 then s.len % s.block_capacity else 0)).take
    s.blocks.length

/-- Embeds `impl Drop for Context`: sweep every allocated block, destructing
each block's live slots and freeing its memory, `panics` telling which
slot's destructor panics when invoked. -/
def Context.drop_glue (s : Context T) (panics : Nat → Bool) : SweepState :=
  sweepFrom panics s.block_capacity 0
    { destructed := [], freed := 0, status := .normal } s.block_sizes

/-- The global indices a sweep over blocks of sizes `ms` starting at global
base `base` destructs, in order. -/
def sweepIndices (capacity : Nat) : Nat → List Nat → List Nat
  | _, [] => []
  | base, m :: ms =>
      (List.range m).map (fun j => base + j) ++ sweepIndices capacity (base + capacity) ms

/-- Concrete context used to instantiate the universally quantified
theorems: capacity 2, three live slots spread over two blocks. -/
def exCtx : Context Nat :=
  { blocks := [[some 5, some 6], [some 7, none]], block_capacity := 2, len := 3 }

/-- Concrete empty context with capacity 16, as in the crate's own test. -/
def exEmpty : Context Nat := Context.fresh Nat 16

/-- Concrete context whose single block is exactly full, so that the next
push allocates a new block. -/
def exFull : Context Nat :=
  { blocks := [[some 5, some 6]], block_capacity := 2, len := 2 }

/-- Panic pattern used in the teardown witness: exactly slot 1 panics. -/
def exPanics : Nat → Bool := fun g => g == 1

/-- The panic-free pattern: no destructor panics. -/
def noPanics : Nat → Bool := fun _ => false

/-! Basic facts about `pop`, `push` and `top`. -/

theorem USIZE_eq : USIZE = 2 ^ 64 := by norm_num [USIZE]

theorem Context.pop_blocks (s : Context T) : s.pop.blocks = s.blocks := by
  obtain ⟨bl, cap, len⟩ := s
  rfl

theorem Context.pop_capacity (s : Context T) : s.pop.block_capacity = s.block_capacity := by
  obtain ⟨bl, cap, len⟩ := s
  rfl

theorem Context.pop_len (s : Context T) (h0 : 0 < s.len) (h1 : s.len < USIZE) :
    s.pop.len = s.len - 1 := by
  obtain ⟨bl, cap, len⟩ := s
  show (len + (USIZE - 1)) % USIZE = len - 1
  unfold USIZE at h1 ⊢
  simp only at h0 h1 ⊢
  omega

theorem Context.push_len (s : Context T) (v : T) : (s.push v).1.len = s.len + 1 := rfl

theorem Context.push_addr (s : Context T) (v : T) :
    (s.push v).2 = slot_addr s.block_capacity s.len := rfl

theorem Context.push_target_capacity (s : Context T) :
    s.push_target.block_capacity = s.block_capacity := by
  unfold Context.push_target
  split <;> rfl

theorem Context.push_target_len (s : Context T) : s.push_target.len = s.len := by
  unfold Context.push_target
  split <;> rfl

theorem Context.push_capacity (s : Context T) (v : T) :
    (s.push v).1.block_capacity = s.block_capacity := s.push_target_capacity

theorem Context.push_target_blocks_length (s : Context T) :
    s.push_target.blocks.length =
      if s.len % s.block_capacity = 0 ∧ s.blocks.length ≤ s.len / s.block_capacity
      then s.blocks.length + 1 else s.blocks.length := by
  unfold Context.push_target Context.reserve_block
  split <;> simp

theorem Context.push_blocks_length (s : Context T) (v : T) :
    (s.push v).1.blocks.length = s.push_target.blocks.length := by
  show (s.push_target.blocks.set _ _).length = _
  exact List.length_set ..

theorem Context.push_target_getElem (s : Context T) (j : Nat) (hj : j < s.blocks.length) :
    s.push_target.blocks[j]? = s.blocks[j]? := by
  unfold Context.push_target Context.reserve_block
  split
  · simp [List.getElem?_append, hj]
  · rfl

theorem Context.push_target_block_mem (s : Context T) (h : s.wf) :
    ∀ bl ∈ s.push_target.blocks, bl.length = s.block_capacity := by
  intro bl hbl
  unfold Context.push_target Context.reserve_block at hbl
  obtain ⟨hcap, hlen, hall⟩ := h
  split at hbl
  · rcases List.mem_append.1 hbl with hmem | hmem
    · exact hall bl hmem
    · have : bl = List.replicate s.block_capacity (none : Option T) := by
        simpa using hmem
      simp [this]
  · exact hall bl hbl

theorem Context.push_target_block_lt (s : Context T) (h : s.wf) :
    s.len / s.block_capacity < s.push_target.blocks.length := by
  obtain ⟨hcap, hlen, hall⟩ := h
  rw [s.push_target_blocks_length]
  by_cases hc : s.len % s.block_capacity = 0 ∧ s.blocks.length ≤ s.len / s.block_capacity
  · rw [if_pos hc]
    have : s.len / s.block_capacity ≤ s.blocks.length := by
      calc s.len / s.block_capacity ≤ s.blocks.length * s.block_capacity / s.block_capacity :=
            Nat.div_le_div_right hlen
        _ = s.blocks.length := Nat.mul_div_cancel _ hcap
    omega
  · rw [if_neg hc]
    rcases Decidable.not_and_iff_or_not.1 hc with hm | hb
    · have hne : s.len ≠ s.blocks.length * s.block_capacity := by
        intro he
        exact hm (by simp [he, Nat.mul_mod_left])
      exact (Nat.div_lt_iff_lt_mul hcap).2 (by omega)
    · omega

theorem Context.top_of_ne (s : Context T) (h : s.len ≠ 0) :
    s.top = some (slot_addr s.block_capacity (s.len - 1)) := by
  simp [Context.top, h]

theorem Context.push_blocks_def (s : Context T) (v : T) :
    (s.push v).1.blocks =
      s.push_target.blocks.set (s.len / s.block_capacity)
        ((s.push_target.blocks.getD (s.len / s.block_capacity) []).set
          (s.len % s.block_capacity) (some v)) := rfl

theorem Context.push_target_getD (s : Context T) (h : s.wf) :
    s.push_target.blocks.getD (s.len / s.block_capacity) [] =
      s.push_target.blocks.get ⟨s.len / s.block_capacity, s.push_target_block_lt h⟩ := by
  rw [List.getD_eq_getElem?_getD, List.getElem?_eq_getElem (s.push_target_block_lt h)]
  rfl

theorem Context.push_target_getD_length (s : Context T) (h : s.wf) :
    (s.push_target.blocks.getD (s.len / s.block_capacity) []).length = s.block_capacity := by
  rw [s.push_target_getD h]
  exact s.push_target_block_mem h _ (List.get_mem _ _ _)

theorem Context.push_preserves_wf (s : Context T) (v : T) (h : s.wf) : (s.push v).1.wf := by
  obtain ⟨hcap, hlen, hall⟩ := h
  have hwf : s.wf := ⟨hcap, hlen, hall⟩
  have hbL : s.len / s.block_capacity ≤ s.blocks.length := by
    calc s.len / s.block_capacity
        ≤ s.blocks.length * s.block_capacity / s.block_capacity := Nat.div_le_div_right hlen
      _ = s.blocks.length := Nat.mul_div_cancel _ hcap
  refine ⟨?_, ?_, ?_⟩
  · rw [s.push_capacity]
    exact hcap
  · rw [s.push_len, s.push_capacity, s.push_blocks_length, s.push_target_blocks_length]
    have hdm := Nat.div_add_mod s.len s.block_capacity
    by_cases hc : s.len % s.block_capacity = 0 ∧
        s.blocks.length ≤ s.len / s.block_capacity
    · rw [if_pos hc]
      have hb : s.len / s.block_capacity = s.blocks.length := Nat.le_antisymm hbL hc.2
      have hlen' : s.len = s.blocks.length * s.block_capacity := by
        rw [← hdm, hc.1, hb]
        ring
      calc s.len + 1 = s.blocks.length * s.block_capacity + 1 := by rw [hlen']
        _ ≤ s.blocks.length * s.block_capacity + s.block_capacity := by omega
        _ = (s.blocks.length + 1) * s.block_capacity := by ring
    · rw [if_neg hc]
      have hlt : s.len < s.blocks.length * s.block_capacity := by
        rcases Decidable.not_and_iff_or_not.1 hc with hm | hb
        · have hne : s.len ≠ s.blocks.length * s.block_capacity := by
            intro he
            exact hm (by simp [he, Nat.mul_mod_left])
          omega
        · exact (Nat.div_lt_iff_lt_mul hcap).1 (by omega)
      omega
  · rw [s.push_capacity, s.push_blocks_def]
    intro bl hbl
    rcases List.mem_or_eq_of_mem_set hbl with hmem | heq
    · exact s.push_target_block_mem hwf bl hmem
    · rw [heq, List.length_set]
      exact s.push_target_getD_length hwf

theorem Context.push_deref_new (s : Context T) (v : T) (h : s.wf) :
    (s.push v).1.deref ((s.push v).2) = some v := by
  have hcap := h.1
  have hb := s.push_target_block_lt h
  have hu : s.len % s.block_capacity < s.block_capacity := Nat.mod_lt _ hcap
  have hgl := s.push_target_block_mem h _ (List.getElem_mem hb)
  rw [s.push_addr]
  simp only [Context.deref, slot_addr]
  rw [s.push_blocks_def]
  simp [List.getElem?_set, hb, List.length_set, s.push_target_getD_length h, hgl, hu]

theorem Context.push_top (s : Context T) (v : T) :
    (s.push v).1.top = some (slot_addr s.block_capacity s.len) := by
  rw [(s.push v).1.top_of_ne (by rw [s.push_len]; omega)]
  rw [s.push_len, s.push_capacity]
  simp

theorem Context.push_deref_old (s : Context T) (v : T) (i : Nat) (h : s.wf) (hi : i < s.len) :
    (s.push v).1.deref (slot_addr s.block_capacity i) = s.deref (slot_addr s.block_capacity i) := by
  obtain ⟨hcap, hlen, hall⟩ := h
  have hwf : s.wf := ⟨hcap, hlen, hall⟩
  have hb := s.push_target_block_lt hwf
  have hbiL : i / s.block_capacity < s.blocks.length :=
    (Nat.div_lt_iff_lt_mul hcap).2 (lt_of_lt_of_le hi hlen)
  have hpres := s.push_target_getElem (i / s.block_capacity) hbiL
  simp only [Context.deref, slot_addr]
  rw [s.push_blocks_def, List.getElem?_set]
  by_cases hbb : s.len / s.block_capacity = i / s.block_capacity
  · have hui : s.len % s.block_capacity ≠ i % s.block_capacity := by
      intro he
      have hieq : i = s.len := by
        conv_lhs => rw [← Nat.div_add_mod i s.block_capacity]
        rw [← hbb, ← he, Nat.div_add_mod]
      omega
    rw [if_pos hbb, if_pos hb, ← hpres, ← hbb]
    rw [List.getElem?_eq_getElem hb, s.push_target_getD hwf]
    simp [List.getElem?_set, List.get_eq_getElem, hui]
  · rw [if_neg hbb, hpres]

/-! Facts about the teardown sweep. -/

theorem sweepFrom_nil (panics : Nat → Bool) (capacity base : Nat) (st : SweepState) :
    sweepFrom panics capacity base st [] = st := rfl

theorem sweepFrom_cons (panics : Nat → Bool) (capacity base : Nat) (st : SweepState)
    (m : Nat) (ms : List Nat) :
    sweepFrom panics capacity base st (m :: ms) =
      sweepFrom panics capacity (base + capacity) (dropBlock panics st base m) ms := rfl

theorem sweepIndices_nil (capacity base : Nat) : sweepIndices capacity base [] = [] := rfl

theorem sweepIndices_cons (capacity base m : Nat) (ms : List Nat) :
    sweepIndices capacity base (m :: ms) =
      (List.range m).map (fun j => base + j) ++ sweepIndices capacity (base + capacity) ms := rfl

theorem dropSlot_no_panic (panics : Nat → Bool) (g : Nat) (d : List Nat) (f : Nat)
    (stt : SweepStatus) (hg : panics g = false) (hst : stt ≠ .aborted) :
    dropSlot panics ⟨d, f, stt⟩ g = ⟨d ++ [g], f, stt⟩ := by
  cases stt
  · simp [dropSlot, hg]
  · simp [dropSlot, hg]
  · exact absurd rfl hst

theorem dropSlot_panic_normal (panics : Nat → Bool) (g : Nat) (d : List Nat) (f : Nat)
    (hg : panics g = true) :
    dropSlot panics ⟨d, f, .normal⟩ g = ⟨d ++ [g], f, .unwinding g⟩ := by
  simp [dropSlot, hg]

theorem dropSlots_succ (panics : Nat → Bool) (base : Nat) (st : SweepState) (m : Nat) :
    dropSlots panics base st (m + 1) =
      dropSlot panics (dropSlots panics base st m) (base + m) := by
  unfold dropSlots
  rw [List.range_succ, List.foldl_append]
  rfl

theorem dropSlots_no_panic (panics : Nat → Bool) (base : Nat) :
    ∀ m (d : List Nat) (f : Nat) (stt : SweepStatus), stt ≠ .aborted →
      (∀ j, j < m → panics (base + j) = false) →
      dropSlots panics base ⟨d, f, stt⟩ m =
        ⟨d ++ (List.range m).map (fun j => base + j), f, stt⟩ := by
  intro m
  induction m with
  | zero => intro d f stt h1 h2; simp [dropSlots]
  | succ m ih =>
      intro d f stt h1 h2
      rw [dropSlots_succ, ih d f stt h1 (fun j hj => h2 j (by omega))]
      rw [dropSlot_no_panic panics (base + m) _ f stt (h2 m (by omega)) h1]
      simp [List.range_succ]

theorem dropSlots_one_panic (panics : Nat → Bool) (base k : Nat) :
    ∀ m (d : List Nat) (f : Nat), k < m → (∀ g, panics g = (g == base + k)) →
      dropSlots panics base ⟨d, f, .normal⟩ m =
        ⟨d ++ (List.range m).map (fun j => base + j), f, .unwinding (base + k)⟩ := by
  intro m
  induction m with
  | zero => intro d f hk hp; exact absurd hk (by omega)
  | succ m ih =>
      intro d f hk hp
      by_cases hkm : k = m
      · rw [dropSlots_succ]
        rw [dropSlots_no_panic panics base m d f .normal (by simp)
            (fun j hj => by rw [hp]; simp; omega)]
        rw [dropSlot_panic_normal panics (base + m) _ f (by rw [hp]; simp [hkm])]
        simp [List.range_succ, hkm]
      · have hk' : k < m := by omega
        rw [dropSlots_succ, ih d f hk' hp]
        rw [dropSlot_no_panic panics (base + m) _ f _ (by rw [hp]; simp; omega) (by simp)]
        simp [List.range_succ]

theorem dropBlock_no_panic (panics : Nat → Bool) (base m : Nat) (d : List Nat) (f : Nat)
    (stt : SweepStatus) (hst : stt ≠ .aborted)
    (hp : ∀ j, j < m → panics (base + j) = false) :
    dropBlock panics ⟨d, f, stt⟩ base m =
      ⟨d ++ (List.range m).map (fun j => base + j), f + 1, stt⟩ := by
  unfold dropBlock
  rw [dropSlots_no_panic panics base m d f stt hst hp]
  cases stt
  · rfl
  · rfl
  · exact absurd rfl hst

theorem dropBlock_one_panic (panics : Nat → Bool) (base m k : Nat) (d : List Nat) (f : Nat)
    (hk : k < m) (hp : ∀ g, panics g = (g == base + k)) :
    dropBlock panics ⟨d, f, .normal⟩ base m =
      ⟨d ++ (List.range m).map (fun j => base + j), f + 1, .unwinding (base + k)⟩ := by
  unfold dropBlock
  rw [dropSlots_one_panic panics base k m d f hk hp]

theorem sweepIndices_ge (capacity : Nat) :
    ∀ (ms : List Nat) (base g : Nat), g ∈ sweepIndices capacity base ms → base ≤ g := by
  intro ms
  induction ms with
  | nil => intro base g hg; simp [sweepIndices] at hg
  | cons m ms ih =>
      intro base g hg
      rcases List.mem_append.1 hg with hg | hg
      · obtain ⟨j, hj, rfl⟩ := List.mem_map.1 hg
        omega
      · have := ih (base + capacity) g hg
        omega

theorem sweepFrom_no_panic (panics : Nat → Bool) (capacity : Nat) :
    ∀ (ms : List Nat) (base : Nat) (d : List Nat) (f : Nat) (stt : SweepStatus),
      stt ≠ .aborted → (∀ g, base ≤ g → panics g = false) →
      sweepFrom panics capacity base ⟨d, f, stt⟩ ms =
        ⟨d ++ sweepIndices capacity base ms, f + ms.length, stt⟩ := by
  intro ms
  induction ms with
  | nil => intro base d f stt h1 h2; simp [sweepFrom_nil, sweepIndices_nil]
  | cons m ms ih =>
      intro base d f stt h1 h2
      rw [sweepFrom_cons]
      rw [dropBlock_no_panic panics base m d f stt h1 (fun j hj => h2 _ (by omega))]
      rw [ih (base + capacity) _ _ stt h1 (fun g hg => h2 g (by omega))]
      simp [sweepIndices_cons]
      omega

theorem sweepFrom_one_panic (panics : Nat → Bool) (capacity p : Nat)
    (hp : ∀ g, panics g = (g == p)) :
    ∀ (ms : List Nat) (base : Nat) (d : List Nat) (f : Nat),
      (∀ m ∈ ms, m ≤ capacity) → p ∈ sweepIndices capacity base ms →
      sweepFrom panics capacity base ⟨d, f, .normal⟩ ms =
        ⟨d ++ sweepIndices capacity base ms, f + ms.length, .unwinding p⟩ := by
  intro ms
  induction ms with
  | nil => intro base d f hm hmem; simp [sweepIndices_nil] at hmem
  | cons m ms ih =>
      intro base d f hm hmem
      have hmcap : m ≤ capacity := hm m (by simp)
      rw [sweepFrom_cons]
      rcases List.mem_append.1 hmem with hin | hin
      · obtain ⟨k, hk, rfl⟩ := List.mem_map.1 hin
        have hk' : k < m := List.mem_range.1 hk
        rw [dropBlock_one_panic panics base m k d f hk' hp]
        rw [sweepFrom_no_panic panics capacity ms (base + capacity) _ _ _ (by simp)
            (fun g hg => by rw [hp]; simp; omega)]
        simp [sweepIndices_cons]
        omega
      · have hge : base + capacity ≤ p := sweepIndices_ge capacity ms (base + capacity) p hin
        rw [dropBlock_no_panic panics base m d f .normal (by simp)
            (fun j hj => by rw [hp]; simp; omega)]
        rw [ih (base + capacity) _ _ (fun x hx => hm x (by simp [hx])) hin]
        simp [sweepIndices_cons]
        omega

theorem sweepIndices_replicate (capacity : Nat) :
    ∀ (n base : Nat), sweepIndices capacity base (List.replicate n capacity) =
      List.range' base (n * capacity) := by
  intro n
  induction n with
  | zero => intro base; simp [sweepIndices_nil]
  | succ n ih =>
      intro base
      rw [List.replicate_succ, sweepIndices_cons, ih (base + capacity),
          ← List.range'_eq_map_range]
      have h := List.range'_append base capacity (n * capacity) 1
      rw [Nat.one_mul] at h
      rw [h, Nat.succ_mul, Nat.add_comm (n * capacity) capacity]

theorem sweepIndices_zeros (capacity : Nat) :
    ∀ (k base : Nat), sweepIndices capacity base (List.replicate k 0) = [] := by
  intro k
  induction k with
  | zero => intro base; rfl
  | succ k ih =>
      intro base
      rw [List.replicate_succ, sweepIndices_cons, ih]
      simp

theorem sweepIndices_append (capacity : Nat) :
    ∀ (ms1 ms2 : List Nat) (base : Nat),
      sweepIndices capacity base (ms1 ++ ms2) =
        sweepIndices capacity base ms1 ++
          sweepIndices capacity (base + capacity * ms1.length) ms2 := by
  intro ms1
  induction ms1 with
  | nil => intro ms2 base; simp [sweepIndices_nil]
  | cons m ms ih =>
      intro ms2 base
      rw [List.cons_append, sweepIndices_cons, sweepIndices_cons, ih ms2 (base + capacity)]
      have h : base + capacity + capacity * ms.length = base + capacity * (m :: ms).length := by
        simp [List.length_cons]
        ring
      rw [h, List.append_assoc]

theorem range_map_ite_zero (r k : Nat) :
    (List.range (k + 1)).map (fun i => if i = 0 then r else 0) = r :: List.replicate k 0 := by
  rw [List.range_succ_eq_map]
  simp only [List.map_cons, List.map_map, if_pos rfl]
  have hc : ((fun i => if i = 0 then r else 0) ∘ Nat.succ) = (fun i : Nat => (0 : Nat)) := by
    funext i
    simp
  rw [hc, List.map_const', List.length_range]
  simp

theorem Context.block_sizes_spec (s : Context T) (h : s.wf) :
    sweepIndices s.block_capacity 0 s.block_sizes = List.range s.len ∧
    s.block_sizes.length = s.blocks.length ∧
    (∀ m ∈ s.block_sizes, m ≤ s.block_capacity) := by
  obtain ⟨hcap, hlen, hall⟩ := h
  have hdm := Nat.div_add_mod s.len s.block_capacity
  have hr : s.len % s.block_capacity < s.block_capacity := Nat.mod_lt _ hcap
  have hq : s.len / s.block_capacity ≤ s.blocks.length := by
    calc s.len / s.block_capacity
        ≤ s.blocks.length * s.block_capacity / s.block_capacity := Nat.div_le_div_right hlen
      _ = s.blocks.length := Nat.mul_div_cancel _ hcap
  unfold Context.block_sizes
  rcases Nat.eq_zero_or_pos (s.blocks.length - s.len / s.block_capacity) with hd | hd
  · have hqL : s.len / s.block_capacity = s.blocks.length := by omega
    have h1 : s.len ≤ s.block_capacity * (s.len / s.block_capacity) := by
      rw [hqL]
      calc s.len ≤ s.blocks.length * s.block_capacity := hlen
        _ = s.block_capacity * s.blocks.length := Nat.mul_comm _ _
    have h1' : s.block_capacity * (s.len / s.block_capacity) + s.len % s.block_capacity ≤
        s.block_capacity * (s.len / s.block_capacity) + 0 := by
      rw [Nat.add_zero, hdm]
      exact h1
    have hr0 : s.len % s.block_capacity = 0 := Nat.le_zero.mp ((add_le_add_iff_left _).mp h1')
    have hlen0 : s.len = s.block_capacity * s.blocks.length := by
      calc s.len = s.block_capacity * (s.len / s.block_capacity) + s.len % s.block_capacity :=
            hdm.symm
        _ = s.block_capacity * s.blocks.length := by rw [hr0, hqL, Nat.add_zero]
    rw [hd, List.range_zero, List.map_nil, List.append_nil, hqL]
    rw [List.take_of_length_le (by simp)]
    refine ⟨?_, by simp, ?_⟩
    · rw [sweepIndices_replicate, List.range_eq_range']
      congr 1
      rw [hlen0]
      ring
    · intro m hm
      rw [List.eq_of_mem_replicate hm]
  · obtain ⟨k, hk⟩ : ∃ k, s.blocks.length - s.len / s.block_capacity = k + 1 :=
      ⟨s.blocks.length - s.len / s.block_capacity - 1, by omega⟩
    have hqlt : s.len / s.block_capacity < s.blocks.length := by omega
    rw [hk, range_map_ite_zero]
    have hlength : (List.replicate (s.len / s.block_capacity) s.block_capacity ++
        s.len % s.block_capacity :: List.replicate k 0).length = s.blocks.length := by
      simp
      omega
    rw [List.take_of_length_le (by rw [hlength])]
    refine ⟨?_, by rw [hlength], ?_⟩
    · rw [sweepIndices_append, sweepIndices_replicate, sweepIndices_cons, sweepIndices_zeros,
          List.append_nil, List.length_replicate, ← List.range'_eq_map_range]
      have hb : 0 + s.block_capacity * (s.len / s.block_capacity) =
          s.len / s.block_capacity * s.block_capacity := by ring
      rw [hb]
      have h2 := List.range'_append 0 (s.len / s.block_capacity * s.block_capacity)
        (s.len % s.block_capacity) 1
      rw [Nat.one_mul, Nat.zero_add] at h2
      rw [h2, List.range_eq_range']
      congr 1
      calc s.len % s.block_capacity + s.len / s.block_capacity * s.block_capacity
          = s.block_capacity * (s.len / s.block_capacity) + s.len % s.block_capacity := by ring
        _ = s.len := hdm
    · intro m hm
      rcases List.mem_append.1 hm with hm | hm
      · rw [List.eq_of_mem_replicate hm]
      · rcases List.mem_cons.1 hm with hm | hm
        · omega
        · rw [List.eq_of_mem_replicate hm]
          omega

/-! Block-count bookkeeping along a pure push sequence. -/

theorem Context.push_ceil (s : Context T) (v : T) (hcap : 0 < s.block_capacity)
    (hL : s.blocks.length = (s.len + s.block_capacity - 1) / s.block_capacity) :
    (s.push v).1.blocks.length = (s.len + 1 + s.block_capacity - 1) / s.block_capacity ∧
    ((s.push v).1.blocks.length = s.blocks.length + 1 ↔ s.len % s.block_capacity = 0) := by
  have hdm := Nat.div_add_mod s.len s.block_capacity
  have hr : s.len % s.block_capacity < s.block_capacity := Nat.mod_lt _ hcap
  rw [s.push_blocks_length, s.push_target_blocks_length]
  by_cases hc0 : s.len % s.block_capacity = 0
  · have hdiv1 : (s.block_capacity - 1) / s.block_capacity = 0 := Nat.div_eq_of_lt (by omega)
    have hLq : s.blocks.length = s.len / s.block_capacity := by
      have e1 : s.len + s.block_capacity - 1 =
          s.block_capacity * (s.len / s.block_capacity) + (s.block_capacity - 1) := by omega
      rw [hL, e1, Nat.mul_add_div hcap, hdiv1, Nat.add_zero]
    rw [if_pos ⟨hc0, le_of_eq hLq⟩]
    constructor
    · have e2 : s.len + 1 + s.block_capacity - 1 =
          s.block_capacity * (s.len / s.block_capacity) + s.block_capacity := by omega
      rw [e2, Nat.mul_add_div hcap, Nat.div_self hcap, hLq]
    · exact ⟨fun _ => hc0, fun _ => rfl⟩
  · rw [if_neg (fun hand => hc0 hand.1)]
    have hdiv2 : (s.len % s.block_capacity - 1) / s.block_capacity = 0 :=
      Nat.div_eq_of_lt (by omega)
    have hdiv3 : s.len % s.block_capacity / s.block_capacity = 0 := Nat.div_eq_of_lt hr
    have e3 : s.len + s.block_capacity - 1 =
        s.block_capacity * (s.len / s.block_capacity) +
          ((s.len % s.block_capacity - 1) + s.block_capacity) := by omega
    have hLq : s.blocks.length = s.len / s.block_capacity + 1 := by
      rw [hL, e3, Nat.mul_add_div hcap, Nat.add_div_right _ hcap, hdiv2, Nat.zero_add]
    constructor
    · have e4 : s.len + 1 + s.block_capacity - 1 =
          s.block_capacity * (s.len / s.block_capacity) +
            (s.len % s.block_capacity + s.block_capacity) := by omega
      rw [e4, Nat.mul_add_div hcap, Nat.add_div_right _ hcap, hdiv3, Nat.zero_add, hLq]
    · constructor
      · intro habs
        omega
      · intro habs
        exact absurd habs hc0

theorem Context.pushMany_ceil {cap : Nat} (hcap : 0 < cap) :
    ∀ (vs : List T) (s : Context T), s.block_capacity = cap →
      s.blocks.length = (s.len + cap - 1) / cap →
      (s.pushMany vs).block_capacity = cap ∧
      (s.pushMany vs).len = s.len + vs.length ∧
      (s.pushMany vs).blocks.length = (s.len + vs.length + cap - 1) / cap := by
  intro vs
  induction vs with
  | nil =>
      intro s h1 h2
      exact ⟨h1, by simp [Context.pushMany], by simpa [Context.pushMany] using h2⟩
  | cons v vs ih =>
      intro s h1 h2
      have hcap' : 0 < s.block_capacity := h1 ▸ hcap
      have hstep := Context.push_ceil s v hcap' (by rw [h2, h1])
      have hc' : (s.push v).1.block_capacity = cap := by rw [s.push_capacity, h1]
      have hl' : (s.push v).1.len = s.len + 1 := s.push_len v
      have hL' : (s.push v).1.blocks.length = ((s.push v).1.len + cap - 1) / cap := by
        rw [hl', hstep.1, h1]
      obtain ⟨ha, hb, hc⟩ := ih (s.push v).1 hc' hL'
      have hfold : s.pushMany (v :: vs) = (s.push v).1.pushMany vs := rfl
      refine ⟨by rw [hfold]; exact ha, ?_, ?_⟩
      · rw [hfold, hb, hl', List.length_cons]
        omega
      · rw [hfold, hc, hl', List.length_cons]
        have harg : s.len + 1 + vs.length = s.len + (vs.length + 1) := by omega
        rw [harg]

/-! Remaining shared helper lemmas. -/

theorem Context.deref_eq (s : Context T) (a : Nat × Nat) :
    s.deref a = (s.blocks[a.1]?.bind fun b => b[a.2]?).join := rfl

theorem Context.pop_deref (s : Context T) (a : Nat × Nat) : s.pop.deref a = s.deref a := by
  rw [Context.deref_eq, Context.deref_eq, s.pop_blocks]

theorem Context.drop_glue_no_panic (s : Context T) (panics : Nat → Bool) (h : s.wf)
    (hp : ∀ g, panics g = false) :
    s.drop_glue panics = ⟨List.range s.len, s.blocks.length, .normal⟩ := by
  obtain ⟨hidx, hlen, hbound⟩ := s.block_sizes_spec h
  unfold Context.drop_glue
  rw [sweepFrom_no_panic panics s.block_capacity s.block_sizes 0 [] 0 .normal
      (by simp) (fun g _ => hp g)]
  rw [hidx, hlen]
  simp

theorem Context.drop_glue_one_panic (s : Context T) (panics : Nat → Bool) (p : Nat)
    (h : s.wf) (hplt : p < s.len) (hp : ∀ g, panics g = (g == p)) :
    s.drop_glue panics = ⟨List.range s.len, s.blocks.length, .unwinding p⟩ := by
  obtain ⟨hidx, hlen, hbound⟩ := s.block_sizes_spec h
  unfold Context.drop_glue
  rw [sweepFrom_one_panic panics s.block_capacity p hp s.block_sizes 0 [] 0 hbound
      (by rw [hidx]; exact List.mem_range.2 hplt)]
  rw [hidx, hlen]
  simp

/-! Claim theorems. -/

/-- C1: the claim states that `len()` returns the logical element count (the
running length counter) and `is_empty()` is true exactly when that count is
zero, so that with capacity 16 a push makes `len()` return 1 and the
matching pop makes it return 0. The code's public `Context::len` returns
`blocks.len()` (the allocated block count) instead of the counter: at the
claim's own scenario, after the pop the counter is 0 but `len()` still
returns 1 and `is_empty()` returns `false`. This theorem evaluates the
embedded code at that failing input. -/
theorem C1_len_returns_block_count :
    ((exEmpty.push 10).1).len = 1 ∧
    Context.len_fn ((exEmpty.push 10).1) = 1 ∧
    (((exEmpty.push 10).1).pop).len = 0 ∧
    Context.len_fn (((exEmpty.push 10).1).pop) = 1 ∧
    Context.is_empty (((exEmpty.push 10).1).pop) = false := by
  decide

/-- C2 (amended): on an empty `Context` (length counter 0) the fallible
accessor returns empty and the strict accessor fails with the fixed
diagnostic "Tried to get from an empty context"; on a non-empty `Context`
both accessors succeed with the address of slot `len - 1`. -/
theorem C2_accessors (s : Context T) :
    (s.len = 0 → s.try_get = none ∧
      s.get_strict = .error "Tried to get from an empty context") ∧
    (s.len ≠ 0 → s.try_get = some (slot_addr s.block_capacity (s.len - 1)) ∧
      s.get_strict = .ok (slot_addr s.block_capacity (s.len - 1))) := by
  constructor
  · intro h0
    constructor
    · simp [Context.try_get, Context.top, h0]
    · simp [Context.get_strict, Context.top, h0]
  · intro hne
    constructor
    · simp [Context.try_get, Context.top, hne]
    · simp [Context.get_strict, Context.top, hne]

/-- Witness for C2 at an empty and at a non-empty concrete context. -/
theorem C2_accessors_witness :
    (exEmpty.try_get = none ∧
      exEmpty.get_strict = .error "Tried to get from an empty context") ∧
    (exCtx.try_get = some (slot_addr exCtx.block_capacity (exCtx.len - 1)) ∧
      exCtx.get_strict = .ok (slot_addr exCtx.block_capacity (exCtx.len - 1))) :=
  ⟨(C2_accessors exEmpty).1 rfl, (C2_accessors exCtx).2 (by decide)⟩

/-- C2 counterexample: the strict accessor's diagnostic is the string
"Tried to get from an empty context" (capital T), which is not the string
the claim quotes. -/
theorem C2_message_counterexample :
    exEmpty.get_strict = .error "Tried to get from an empty context" ∧
    "Tried to get from an empty context" ≠ "tried to get from an empty context" := by
  constructor
  · rfl
  · decide

/-- C3: tearing down a well-formed `Context` destructs exactly the slots
with index below `len` — each exactly once, none skipped — and frees every
allocated block; with no panicking destructor the teardown finishes
normally, and when exactly one live slot's destructor panics every live
slot is still destructed exactly once, every block is still freed, and that
single panic is propagated to the destroyer once, after the sweep. -/
theorem C3_teardown (s : Context T) (panics : Nat → Bool) (h : s.wf) :
    ((∀ g, panics g = false) →
      s.drop_glue panics = ⟨List.range s.len, s.blocks.length, .normal⟩) ∧
    (∀ p, p < s.len → (∀ g, panics g = (g == p)) →
      s.drop_glue panics = ⟨List.range s.len, s.blocks.length, .unwinding p⟩) :=
  ⟨fun hp => s.drop_glue_no_panic panics h hp,
   fun p hplt hp => s.drop_glue_one_panic panics p h hplt hp⟩

/-- Witness for C3: a two-block context with three live slots, swept once
with no panics and once with slot 1 panicking. -/
theorem C3_teardown_witness :
    exCtx.drop_glue noPanics = ⟨List.range 3, 2, .normal⟩ ∧
    exCtx.drop_glue exPanics = ⟨List.range 3, 2, .unwinding 1⟩ :=
  ⟨(C3_teardown exCtx noPanics (by decide)).1 (fun g => rfl),
   (C3_teardown exCtx exPanics (by decide)).2 1 (by decide) (fun g => rfl)⟩

/-- C4: after any `push` on a well-formed `Context`, the returned address is
`slot_addr capacity len`, which is slot `len - 1` of the new state; `top`
returns exactly that address, the slot holds the pushed value, the length
counter grew by one, and well-formedness is preserved — so the property
applies after each push of any sequence. `top` is embedded as a pure
function of the state: the source takes `&self` and mutates nothing. -/
theorem C4_top_after_push (s : Context T) (v : T) (h : s.wf) :
    (s.push v).2 = slot_addr s.block_capacity s.len ∧
    (s.push v).1.top = some ((s.push v).2) ∧
    (s.push v).1.deref ((s.push v).2) = some v ∧
    (s.push v).1.len = s.len + 1 ∧
    (s.push v).1.wf := by
  refine ⟨s.push_addr v, ?_, s.push_deref_new v h, s.push_len v, s.push_preserves_wf v h⟩
  rw [s.push_top, s.push_addr]

/-- Witness for C4 at a concrete context. -/
theorem C4_top_after_push_witness :
    (exCtx.push 9).2 = slot_addr exCtx.block_capacity exCtx.len ∧
    (exCtx.push 9).1.top = some ((exCtx.push 9).2) ∧
    (exCtx.push 9).1.deref ((exCtx.push 9).2) = some 9 ∧
    (exCtx.push 9).1.len = exCtx.len + 1 ∧
    (exCtx.push 9).1.wf :=
  C4_top_after_push exCtx 9 (by decide)

/-- C5 (amended): starting from a fresh `Context` with positive block
capacity, pushing `vs` leaves exactly `⌈vs.length / cap⌉` allocated blocks
(computed as `(vs.length + cap - 1) / cap`), and a further push allocates a
new block exactly when the pre-push logical length `vs.length` is a
multiple of the capacity; for every capacity at least 2, pushing `cap - 1`,
`cap` and `cap + 1` values allocates 1, 1 and 2 blocks respectively. -/
theorem C5_block_allocation (cap : Nat) (hcap : 0 < cap) (vs : List T) (v : T) :
    ((Context.fresh T cap).pushMany vs).blocks.length = (vs.length + cap - 1) / cap ∧
    ((((Context.fresh T cap).pushMany vs).push v).1.blocks.length =
        ((Context.fresh T cap).pushMany vs).blocks.length + 1 ↔ vs.length % cap = 0) ∧
    (2 ≤ cap →
      ∀ us : List T,
        (us.length = cap - 1 → ((Context.fresh T cap).pushMany us).blocks.length = 1) ∧
        (us.length = cap → ((Context.fresh T cap).pushMany us).blocks.length = 1) ∧
        (us.length = cap + 1 → ((Context.fresh T cap).pushMany us).blocks.length = 2)) := by
  have hbase : (Context.fresh T cap).blocks.length =
      ((Context.fresh T cap).len + cap - 1) / cap := by
    show (0 : Nat) = (0 + cap - 1) / cap
    rw [Nat.zero_add, Nat.div_eq_of_lt (by omega)]
  obtain ⟨ha, hb, hc⟩ := Context.pushMany_ceil hcap vs (Context.fresh T cap) rfl hbase
  have hfirst : ((Context.fresh T cap).pushMany vs).blocks.length =
      (vs.length + cap - 1) / cap := by
    rw [hc]
    show ((Context.fresh T cap).len + vs.length + cap - 1) / cap = _
    have e : (Context.fresh T cap).len + vs.length = vs.length := by
      show 0 + vs.length = vs.length
      omega
    rw [e]
  refine ⟨hfirst, ?_, ?_⟩
  · have hcap' : 0 < ((Context.fresh T cap).pushMany vs).block_capacity := by
      rw [ha]
      exact hcap
    have hstep := Context.push_ceil ((Context.fresh T cap).pushMany vs) v hcap'
      (by rw [ha, hfirst, hb]; show _ = (0 + vs.length + cap - 1) / cap; rw [Nat.zero_add])
    rw [hb, ha] at hstep
    have e0 : (Context.fresh T cap).len + vs.length = vs.length := by
      show 0 + vs.length = vs.length
      omega
    rw [e0] at hstep
    exact hstep.2
  · intro h2 us
    have hbaseu := Context.pushMany_ceil hcap us (Context.fresh T cap) rfl hbase
    have huslen : ((Context.fresh T cap).pushMany us).blocks.length =
        (us.length + cap - 1) / cap := by
      rw [hbaseu.2.2]
      show ((Context.fresh T cap).len + us.length + cap - 1) / cap = _
      have e : (Context.fresh T cap).len + us.length = us.length := by
        show 0 + us.length = us.length
        omega
      rw [e]
    refine ⟨?_, ?_, ?_⟩
    · intro hl
      rw [huslen, hl]
      have e : cap - 1 + cap - 1 = (cap - 2) + cap := by omega
      rw [e, Nat.add_div_right _ hcap, Nat.div_eq_of_lt (by omega)]
    · intro hl
      rw [huslen, hl]
      have e : cap + cap - 1 = (cap - 1) + cap := by omega
      rw [e, Nat.add_div_right _ hcap, Nat.div_eq_of_lt (by omega)]
    · intro hl
      rw [huslen, hl]
      have e : cap + 1 + cap - 1 = cap + cap := by omega
      rw [e, Nat.add_div_right _ hcap, Nat.div_self hcap]

/-- Witness for C5 at capacity 2, a three-element push sequence, and the
three particular counts. -/
theorem C5_block_allocation_witness :
    ((Context.fresh Nat 2).pushMany [5, 6, 7]).blocks.length = (3 + 2 - 1) / 2 ∧
    ((((Context.fresh Nat 2).pushMany [5, 6, 7]).push 8).1.blocks.length =
        ((Context.fresh Nat 2).pushMany [5, 6, 7]).blocks.length + 1 ↔ (3 : Nat) % 2 = 0) ∧
    ((Context.fresh Nat 2).pushMany [9]).blocks.length = 1 ∧
    ((Context.fresh Nat 2).pushMany [9, 10]).blocks.length = 1 ∧
    ((Context.fresh Nat 2).pushMany [9, 10, 11]).blocks.length = 2 := by
  have h := C5_block_allocation 2 (by decide) [5, 6, 7] 8
  exact ⟨h.1, h.2.1, (h.2.2 (by decide) [9]).1 (by decide),
         (h.2.2 (by decide) [9, 10]).2.1 (by decide),
         (h.2.2 (by decide) [9, 10, 11]).2.2 (by decide)⟩

/-- C5 counterexample: with block capacity 1 the claim's particular case
fails — pushing `capacity - 1 = 0` values allocates 0 blocks, not 1. -/
theorem C5_capacity_one_counterexample :
    ¬ (((Context.fresh Nat 1).pushMany (List.replicate (1 - 1) 0)).blocks.length = 1) := by
  decide

/-- C6: a later `push` — including one that allocates a new block — leaves
every already-live slot untouched: reading through the address of any index
`i < len` gives the same value before and after the push, and that address
(`slot_addr capacity i`, the block/offset pair standing for the machine
address) is itself unchanged since blocks are never moved or freed. -/
theorem C6_push_frame (s : Context T) (v : T) (i : Nat) (h : s.wf) (hi : i < s.len) :
    (s.push v).1.deref (slot_addr s.block_capacity i) =
      s.deref (slot_addr s.block_capacity i) :=
  s.push_deref_old v i h hi

/-- Witness for C6 at a context whose block is full, so the witnessed push
allocates a fresh block. -/
theorem C6_push_frame_witness :
    (exFull.push 9).1.deref (slot_addr exFull.block_capacity 1) =
      exFull.deref (slot_addr exFull.block_capacity 1) :=
  C6_push_frame exFull 9 1 (by decide) (by decide)

/-- C7: after `push a; push b; pop`, `top` returns the address of the slot
holding `a` (slot `len - 1` of the resulting state), that slot still holds
`a`, and the length counter is back to one above the starting point. -/
theorem C7_pop_restores_top (s : Context T) (a b : T) (h : s.wf)
    (hu : s.len + 2 < USIZE) :
    ((s.push a).1.push b).1.pop.top = some (slot_addr s.block_capacity s.len) ∧
    ((s.push a).1.push b).1.pop.deref (slot_addr s.block_capacity s.len) = some a ∧
    ((s.push a).1.push b).1.pop.len = s.len + 1 := by
  have hwf1 := s.push_preserves_wf a h
  have hlen1 := s.push_len a
  have hlen2 := (s.push a).1.push_len b
  have hcap1 := s.push_capacity a
  have hcap2 := (s.push a).1.push_capacity b
  have hlen2' : ((s.push a).1.push b).1.len = s.len + 2 := by
    rw [hlen2, hlen1]
  have hlen3 : ((s.push a).1.push b).1.pop.len = s.len + 1 := by
    rw [((s.push a).1.push b).1.pop_len (by omega) (by omega), hlen2']
    omega
  refine ⟨?_, ?_, hlen3⟩
  · rw [Context.top_of_ne _ (by omega), hlen3, ((s.push a).1.push b).1.pop_capacity,
        hcap2, hcap1]
    simp
  · rw [Context.pop_deref]
    have hold := (s.push a).1.push_deref_old b s.len hwf1 (by omega)
    rw [hcap1] at hold
    rw [hold]
    have hnew := s.push_deref_new a h
    rw [s.push_addr] at hnew
    exact hnew

/-- Witness for C7 at a concrete context. -/
theorem C7_pop_restores_top_witness :
    ((exCtx.push 7).1.push 8).1.pop.top = some (slot_addr exCtx.block_capacity exCtx.len) ∧
    ((exCtx.push 7).1.push 8).1.pop.deref (slot_addr exCtx.block_capacity exCtx.len) =
      some 7 ∧
    ((exCtx.push 7).1.push 8).1.pop.len = exCtx.len + 1 :=
  C7_pop_restores_top exCtx 7 8 (by decide) (by decide)

/-- C8: the allocated blocks never shrink while the `Context` is alive —
`pop` leaves the block list (and the capacity) untouched, `push` never
removes a block, allocates at most one, and keeps the construction-time
capacity; when the target position lies inside an already-allocated block,
`push` allocates nothing and returns an address inside the existing
blocks. -/
theorem C8_blocks_monotone (s : Context T) (v : T) :
    s.pop.blocks = s.blocks ∧
    s.pop.block_capacity = s.block_capacity ∧
    s.blocks.length ≤ (s.push v).1.blocks.length ∧
    (s.push v).1.blocks.length ≤ s.blocks.length + 1 ∧
    (s.push v).1.block_capacity = s.block_capacity ∧
    (s.len / s.block_capacity < s.blocks.length →
      (s.push v).1.blocks.length = s.blocks.length ∧
      (s.push v).2.1 < s.blocks.length) := by
  refine ⟨s.pop_blocks, s.pop_capacity, ?_, ?_, s.push_capacity v, ?_⟩
  · rw [s.push_blocks_length, s.push_target_blocks_length]
    split <;> omega
  · rw [s.push_blocks_length, s.push_target_blocks_length]
    split <;> omega
  · intro hlt
    refine ⟨?_, ?_⟩
    · rw [s.push_blocks_length, s.push_target_blocks_length,
          if_neg (by rintro ⟨h1, h2⟩; omega)]
    · rw [s.push_addr]
      exact hlt

/-- Witness for C8 at a concrete context whose target block already
exists. -/
theorem C8_blocks_monotone_witness :
    exCtx.pop.blocks = exCtx.blocks ∧
    exCtx.pop.block_capacity = exCtx.block_capacity ∧
    exCtx.blocks.length ≤ (exCtx.push 9).1.blocks.length ∧
    (exCtx.push 9).1.blocks.length ≤ exCtx.blocks.length + 1 ∧
    (exCtx.push 9).1.block_capacity = exCtx.block_capacity ∧
    ((exCtx.push 9).1.blocks.length = exCtx.blocks.length ∧
      (exCtx.push 9).2.1 < exCtx.blocks.length) := by
  have h := C8_blocks_monotone exCtx 9
  exact ⟨h.1, h.2.1, h.2.2.1, h.2.2.2.1, h.2.2.2.2.1, h.2.2.2.2.2 (by decide)⟩

/-- C9: constructing a `Context` with block capacity zero fails immediately
with the configuration error (the `expect` on `NonZeroUsize::new`), while
any positive capacity succeeds and yields an empty context: length counter
0 and no blocks allocated. -/
theorem C9_new (T : Type) (c : Nat) :
    Context.new T 0 = .error "The block capacity must be non-zero" ∧
    (0 < c → Context.new T c = .ok (Context.fresh T c) ∧
      (Context.fresh T c).len = 0 ∧ (Context.fresh T c).blocks = []) := by
  constructor
  · rfl
  · intro hc
    refine ⟨?_, rfl, rfl⟩
    unfold Context.new Context.fresh
    rw [if_neg (by omega)]

/-- Witness for C9 at capacity 16. -/
theorem C9_new_witness :
    Context.new Nat 0 = .error "The block capacity must be non-zero" ∧
    Context.new Nat 16 = .ok (Context.fresh Nat 16) ∧
    (Context.fresh Nat 16).len = 0 ∧ (Context.fresh Nat 16).blocks = [] :=
  ⟨(C9_new Nat 16).1, (C9_new Nat 16).2 (by decide)⟩

/-- C10: `pop` — and hence an `Item`'s destructor, which only calls it —
modifies nothing but the length counter: the blocks, their contents and the
capacity stay untouched and the stored value's destructor never runs, so a
value pushed and then popped still sits in its slot, while `Context`
teardown destructs only the indices below the final `len` — the popped
value at index `len` is never destructed. -/
theorem C10_pop_never_destructs (s : Context T) (v : T) (panics : Nat → Bool) (h : s.wf)
    (hu : s.len + 1 < USIZE) (hp : ∀ g, panics g = false) :
    itemDrop (s.push v).1 = (s.push v).1.pop ∧
    (itemDrop (s.push v).1).blocks = (s.push v).1.blocks ∧
    (itemDrop (s.push v).1).block_capacity = s.block_capacity ∧
    (itemDrop (s.push v).1).len = s.len ∧
    (itemDrop (s.push v).1).deref (slot_addr s.block_capacity s.len) = some v ∧
    ((itemDrop (s.push v).1).drop_glue panics).destructed = List.range s.len ∧
    s.len ∉ List.range s.len := by
  have hwf1 := s.push_preserves_wf v h
  have hlen1 := s.push_len v
  have hcap1 := s.push_capacity v
  have hlenp : (s.push v).1.pop.len = s.len := by
    rw [(s.push v).1.pop_len (by omega) (by omega), hlen1]
    omega
  have hwfp : (s.push v).1.pop.wf := by
    obtain ⟨hw1, hw2, hw3⟩ := hwf1
    refine ⟨?_, ?_, ?_⟩
    · rw [(s.push v).1.pop_capacity]
      exact hw1
    · rw [hlenp, (s.push v).1.pop_capacity, (s.push v).1.pop_blocks]
      calc s.len ≤ (s.push v).1.len := by omega
        _ ≤ (s.push v).1.blocks.length * (s.push v).1.block_capacity := hw2
    · rw [(s.push v).1.pop_capacity, (s.push v).1.pop_blocks]
      exact hw3
  simp only [itemDrop]
  refine ⟨trivial, (s.push v).1.pop_blocks, ?_, hlenp, ?_, ?_, by simp⟩
  · rw [(s.push v).1.pop_capacity, hcap1]
  · rw [Context.pop_deref]
    have hnew := s.push_deref_new v h
    rw [s.push_addr] at hnew
    exact hnew
  · rw [(s.push v).1.pop.drop_glue_no_panic panics hwfp hp, hlenp]

/-- Witness for C10 at a concrete context with the panic-free teardown. -/
theorem C10_pop_never_destructs_witness :
    itemDrop (exCtx.push 9).1 = (exCtx.push 9).1.pop ∧
    (itemDrop (exCtx.push 9).1).blocks = (exCtx.push 9).1.blocks ∧
    (itemDrop (exCtx.push 9).1).block_capacity = exCtx.block_capacity ∧
    (itemDrop (exCtx.push 9).1).len = exCtx.len ∧
    (itemDrop (exCtx.push 9).1).deref (slot_addr exCtx.block_capacity exCtx.len) =
      some 9 ∧
    ((itemDrop (exCtx.push 9).1).drop_glue noPanics).destructed = List.range exCtx.len ∧
    exCtx.len ∉ List.range exCtx.len :=
  C10_pop_never_destructs exCtx 9 noPanics (by decide) (by decide) (fun g => rfl)

end Contextual
